import Mathlib

/-!
Verification of the pyMOR thermal-block sources:
`src/pymor/analyticalproblems/thermalblock.py`,
`src/pymor/demos/thermalblock_gui.py` and `src/pymordemos/cg_oned.py`,
against the repository's specification.

Pure parts of the Python code are embedded as executable Lean functions;
real-valued quantities are modelled over `ℚ` (all constants appearing in
the embedded code are exact rationals).
-/

/-- Errors raised by the Python code, as a closed variant set:
`AssertionError` and `ValueError` from `cg_oned.py`, and the
`ParameterTypeMismatch` of the spec's error taxonomy (§7). -/
inductive PyError where
  | assertionError
  | valueError
  | parameterTypeMismatch
deriving DecidableEq

/-- Embedding of `ProjectionParameterFunctional` as constructed in
`thermalblock.py` (the keyword arguments of the construction site). -/
structure ProjectionParameterFunctional where
  component_name : String
  component_shape : ℕ × ℕ
  coordinates : ℕ × ℕ
  name : String
deriving DecidableEq

/-- `parameter_functional_factory` from `ThermalBlockProblem.__init__`:
for block `(x, y)` it builds a projection functional on component
`diffusion` of shape `(num_blocks[1], num_blocks[0])` with coordinates
`(num_blocks[1] - y - 1, x)`. -/
def parameter_functional_factory (num_blocks : ℕ × ℕ) (x y : ℕ) :
    ProjectionParameterFunctional :=
  { component_name := "diffusion"
  , component_shape := (num_blocks.2, num_blocks.1)
  , coordinates := (num_blocks.2 - y - 1, x)
  , name := "diffusion_" ++ toString x ++ "_" ++ toString y }

/-- A pyMOR `Parameter` as built by the GUI: a single named component
holding an array of a given two-dimensional shape (values indexed by
coordinates). -/
structure Parameter where
  component_name : String
  shape : ℕ × ℕ
  values : ℕ × ℕ → ℚ

/-- Modelled from the spec: `ProjectionParameterFunctional.evaluate` is not
part of the visible source (only its construction sites are).  Per §4.1/§7,
evaluation "must fail with `ParameterTypeMismatch`" on a shape/name mismatch
between the parameter and the parameter type the functional was built
against, and per §3 a projection functional "selects/reads one scalar entry
of one named component, given fixed coordinates". -/
def ProjectionParameterFunctional.evaluate (f : ProjectionParameterFunctional)
    (mu : Parameter) : Except PyError ℚ :=
  if mu.component_name = f.component_name ∧ mu.shape = f.component_shape then
    Except.ok (mu.values f.coordinates)
  else
    Except.error PyError.parameterTypeMismatch

/-- The `Parameter` built in `SimPanel.solve_update`: component `diffusion`
with the spin values reshaped to `shape = (XBLOCKS, YBLOCKS)`. -/
def SimPanel.solve_update_mu (xblocks yblocks : ℕ) (vals : ℕ × ℕ → ℚ) :
    Parameter :=
  { component_name := "diffusion"
  , shape := (xblocks, yblocks)
  , values := vals }

/-- Embedding of `ThermalBlockDiffusionFunction` (its constructor fields). -/
structure ThermalBlockDiffusionFunction where
  x : ℕ
  y : ℕ
  dx : ℚ
  dy : ℚ
deriving DecidableEq

/-- `ThermalBlockDiffusionFunction.evaluate`: the product of the four
indicator factors of the Python body
`1. * (x0 >= x*dx) * (x0 < (x+1)*dx) * (x1 >= y*dy) * (x1 < (y+1)*dy)`.
The `mu` argument is accepted (Python default `mu=None`) and unused. -/
def ThermalBlockDiffusionFunction.evaluate (f : ThermalBlockDiffusionFunction)
    (p : ℚ × ℚ) (mu : Option Parameter) : ℚ :=
  1 * (if p.1 ≥ (f.x : ℚ) * f.dx then 1 else 0)
    * (if p.1 < ((f.x : ℚ) + 1) * f.dx then 1 else 0)
    * (if p.2 ≥ (f.y : ℚ) * f.dy then 1 else 0)
    * (if p.2 < ((f.y : ℚ) + 1) * f.dy then 1 else 0)

/-- `itertools.product(xrange(nx), xrange(ny))`: all block indices `(x, y)`
in the order of the two nested loops. -/
def blockIndices (nx ny : ℕ) : List (ℕ × ℕ) :=
  (List.range nx).flatMap fun x => (List.range ny).map fun y => (x, y)

/-- The tuple `diffusion_functions` built in `ThermalBlockProblem.__init__`
with `dx = 1 / num_blocks[0]`, `dy = 1 / num_blocks[1]`. -/
def ThermalBlockProblem.diffusion_functions (nx ny : ℕ) :
    List ThermalBlockDiffusionFunction :=
  (blockIndices nx ny).map fun b => ⟨b.1, b.2, 1 / (nx : ℚ), 1 / (ny : ℚ)⟩

/-- The tuple `parameter_functionals` built in `ThermalBlockProblem.__init__`. -/
def ThermalBlockProblem.parameter_functionals (nx ny : ℕ) :
    List ProjectionParameterFunctional :=
  (blockIndices nx ny).map fun b => parameter_functional_factory (nx, ny) b.1 b.2

/-- Terminal condition of a greedy run (§4.4 of the spec). -/
inductive GreedyStatus where
  | maxReached
  | tolReached
  | stalled
  | emptyTrainingSet
deriving DecidableEq

/-- Result of a greedy run, instrumented with call counts: `fomCalls` counts
the `FullOrderModel.solve` invocations (step 3 of §4.4), `estimateCalls` the
`ErrorEstimator.estimate` invocations (step 2), `iterations` the loop passes. -/
structure GreedyResult (V : Type) where
  basis : List V
  status : GreedyStatus
  fomCalls : ℕ
  estimateCalls : ℕ
  iterations : ℕ
deriving DecidableEq

/-- Selection of the training sample with the largest estimate, ties broken
by the earliest index (§4.4 step 2): the fold replaces the current best only
on a strictly larger estimate.  `none` only on an empty list. -/
def argmaxFirst {μ : Type} : List (μ × ℚ) → Option (μ × ℚ)
  | [] => none
  | p :: rest => some (rest.foldl (fun best q => if best.2 < q.2 then q else best) p)

/-- Tolerance check of §4.4: only fires when a tolerance is configured. -/
def tolReachedAt (tol : Option ℚ) (err : ℚ) : Bool :=
  match tol with
  | none => false
  | some t => decide (err ≤ t)

/-- Modelled from the spec: the greedy loop body of §4.4.  The `greedy`
algorithm itself is not part of the visible source (the GUI only calls it),
so the loop is taken from the spec: while the basis is shorter than the
maximum size — `fuel` holds the number of vectors still missing — an empty
basis takes the first training sample without estimating (step 1), otherwise
every training sample is estimated and the worst one selected (step 2), the
full-order model is solved there (step 3), the basis is extended, a rejected
extension terminates with `stalled` (step 4).  `extend basis u` returns the
orthonormalized new vector, or `none` when rejected (§4.5). -/
def greedyAux {μ V : Type} (fom : μ → V) (estimate : List V → μ → ℚ)
    (extend : List V → V → Option V) (training : List μ) (tol : Option ℚ) :
    ℕ → GreedyResult V → GreedyResult V
  | 0, r => { r with status := GreedyStatus.maxReached }
  | fuel + 1, r =>
    if r.basis.isEmpty then
      match training.head? with
      | none => { r with status := GreedyStatus.emptyTrainingSet }
      | some mu0 =>
        match extend r.basis (fom mu0) with
        | none => { r with status := GreedyStatus.stalled,
                           iterations := r.iterations + 1, fomCalls := r.fomCalls + 1 }
        | some v =>
          greedyAux fom estimate extend training tol fuel
            { r with basis := r.basis ++ [v],
                     iterations := r.iterations + 1, fomCalls := r.fomCalls + 1 }
    else
      match argmaxFirst (training.map fun mu => (mu, estimate r.basis mu)) with
      | none => { r with status := GreedyStatus.emptyTrainingSet,
                         iterations := r.iterations + 1,
                         estimateCalls := r.estimateCalls + training.length }
      | some muErr =>
        if tolReachedAt tol muErr.2 then
          { r with status := GreedyStatus.tolReached,
                   iterations := r.iterations + 1,
                   estimateCalls := r.estimateCalls + training.length }
        else
          match extend r.basis (fom muErr.1) with
          | none => { r with status := GreedyStatus.stalled,
                             iterations := r.iterations + 1,
                             estimateCalls := r.estimateCalls + training.length,
                             fomCalls := r.fomCalls + 1 }
          | some v =>
            greedyAux fom estimate extend training tol fuel
              { r with basis := r.basis ++ [v],
                       iterations := r.iterations + 1,
                       estimateCalls := r.estimateCalls + training.length,
                       fomCalls := r.fomCalls + 1 }

/-- Modelled from the spec: the greedy basis construction of §4.4, started
from the empty basis with `max_extensions` (`RBSIZE` in the demo) as the
maximum basis size; an empty training set fails with `EmptyTrainingSet`. -/
def greedy {μ V : Type} (fom : μ → V) (estimate : List V → μ → ℚ)
    (extend : List V → V → Option V) (training : List μ) (tol : Option ℚ)
    (max_extensions : ℕ) : GreedyResult V :=
  if training.isEmpty then
    { basis := [], status := GreedyStatus.emptyTrainingSet,
      fomCalls := 0, estimateCalls := 0, iterations := 0 }
  else
    greedyAux fom estimate extend training tol max_extensions
      { basis := [], status := GreedyStatus.maxReached,
        fomCalls := 0, estimateCalls := 0, iterations := 0 }

/-- State of a `ReducedSim` instance from `thermalblock_gui.py`: `first` is
the `self.first` flag (set in `SimBase.__init__`); `built` says whether
`self.rb_discretization` and `self.reconstructor` have been assigned
(done only by `_first`). -/
structure SimState where
  first : Bool
  built : Bool
deriving DecidableEq

/-- Observable events of a `ReducedSim.solve` call: the greedy build
performed by `_first`, and the `rb_discretization.solve` invocation. -/
inductive SimEvent where
  | greedyBuild
  | romSolve
deriving DecidableEq

/-- `SimBase.__init__`: `self.first = True`, nothing built yet. -/
def ReducedSim.init : SimState := { first := true, built := false }

/-- `ReducedSim._first`: runs the greedy loop, assigns
`self.rb_discretization` and `self.reconstructor`, sets `self.first = False`. -/
def ReducedSim.firstStep (_s : SimState) : SimState := { first := false, built := true }

/-- `ReducedSim.solve`: `if self.first: self._first()`, then
`self.reconstructor.reconstruct(self.rb_discretization.solve(mu))`.
Returns the new state and the list of events, each paired with the state in
which it executes. -/
def ReducedSim.solveCall (s : SimState) : SimState × List (SimEvent × SimState) :=
  if s.first then
    let s1 := ReducedSim.firstStep s
    (s1, [(SimEvent.greedyBuild, s), (SimEvent.romSolve, s1)])
  else
    (s, [(SimEvent.romSolve, s)])

/-- `n` successive `ReducedSim.solve` calls starting from a fresh instance:
final state and the concatenated event trace. -/
def ReducedSim.run : ℕ → SimState × List (SimEvent × SimState)
  | 0 => (ReducedSim.init, [])
  | n + 1 =>
    let prev := ReducedSim.run n
    let step := ReducedSim.solveCall prev.1
    (step.1, prev.2 ++ step.2)

/-- The right-hand-side selection of `cg_oned_demo` in `cg_oned.py`:
`assert 0 <= nrhs <= 1, ValueError(...)` — a failing `assert` raises
`AssertionError` (the `ValueError` instance is only the assertion message) —
then `rhs = eval('rhs' + str(nrhs))` picks `rhs0 = 10 * ones` or
`rhs1 = (X0 - 0.5)**2 * 1000`. -/
def cg_oned_demo_rhs (nrhs : ℤ) : Except PyError (ℚ → ℚ) :=
  if 0 ≤ nrhs ∧ nrhs ≤ 1 then
    Except.ok (if nrhs = 0 then (fun _ => 10) else (fun X0 => (X0 - 0.5) ^ 2 * 1000))
  else
    Except.error PyError.assertionError

/-- C1: for every block with x-index `i` and y-index `j` of an `nx × ny`
thermal block problem, the parameter functional reads component `diffusion`
at coordinates `(ny - 1 - j, i)`; in particular for a 2×2 problem the
functional of block `(x = 1, y = 0)` reads coordinates `(1, 1)`. -/
theorem C1_functional_reads_flipped_coordinates :
    (∀ nx ny i j : ℕ,
        (parameter_functional_factory (nx, ny) i j).component_name = "diffusion" ∧
        (parameter_functional_factory (nx, ny) i j).coordinates = (ny - 1 - j, i)) ∧
    (parameter_functional_factory (2, 2) 1 0).coordinates = (1, 1) := by
  refine ⟨fun nx ny i j => ⟨rfl, ?_⟩, rfl⟩
  have h : ny - j - 1 = ny - 1 - j := by omega
  simp [parameter_functional_factory, h]

/-- C3: `ThermalBlockDiffusionFunction(x, y, 1/nx, 1/ny).evaluate(p)` is `1`
exactly when `x/nx ≤ p₀ < (x+1)/nx` and `y/ny ≤ p₁ < (y+1)/ny`, and `0` at
every other point of the plane. -/
theorem C3_evaluate_characteristic (nx ny x y : ℕ) (p : ℚ × ℚ) (mu : Option Parameter) :
    (ThermalBlockDiffusionFunction.mk x y (1 / (nx : ℚ)) (1 / (ny : ℚ))).evaluate p mu =
      if ((x : ℚ) / nx ≤ p.1 ∧ p.1 < ((x : ℚ) + 1) / nx ∧
          (y : ℚ) / ny ≤ p.2 ∧ p.2 < ((y : ℚ) + 1) / ny) then 1 else 0 := by
  simp only [ThermalBlockDiffusionFunction.evaluate, ge_iff_le, one_mul, mul_one_div]
  split_ifs <;> first | tauto | norm_num

/-- C9: the diffusion block functions are parameter independent — evaluation
at the same point under any two parameters gives the same value (the `mu`
argument of `evaluate` is ignored by the body). -/
theorem C9_evaluate_parameter_independent
    (f : ThermalBlockDiffusionFunction) (p : ℚ × ℚ) (mu1 mu2 : Option Parameter) :
    f.evaluate p mu1 = f.evaluate p mu2 := rfl

/-- C10: `cg_oned_demo` raises `AssertionError` (not `ValueError`) for every
integer `nrhs` outside `0 ≤ nrhs ≤ 1`; inside the range the assertion passes
and the right-hand side is constantly `10` for `nrhs = 0` and
`X0 ↦ 1000 * (X0 - 0.5)^2` for `nrhs = 1`. -/
theorem C10_cg_oned_demo_rhs_selection :
    (∀ nrhs : ℤ, ¬(0 ≤ nrhs ∧ nrhs ≤ 1) →
        cg_oned_demo_rhs nrhs = Except.error PyError.assertionError ∧
        cg_oned_demo_rhs nrhs ≠ Except.error PyError.valueError) ∧
    cg_oned_demo_rhs 0 = Except.ok (fun _ => (10 : ℚ)) ∧
    cg_oned_demo_rhs 1 = Except.ok (fun X0 => 1000 * (X0 - 0.5) ^ 2) := by
  refine ⟨fun nrhs h => ?_, rfl, ?_⟩
  · rw [cg_oned_demo_rhs, if_neg h]
    exact ⟨rfl, by simp⟩
  · rw [cg_oned_demo_rhs, if_pos (by norm_num), if_neg (by norm_num)]
    exact congrArg Except.ok (funext fun X0 => by ring)

/-- C10 witness: at `nrhs = 2` the assertion fails with `AssertionError`. -/
theorem C10_witness :
    cg_oned_demo_rhs 2 = Except.error PyError.assertionError ∧
    cg_oned_demo_rhs 2 ≠ Except.error PyError.valueError :=
  C10_cg_oned_demo_rhs_selection.1 2 (by norm_num)

/-- C2: evaluating a projection functional at a parameter whose component
shape differs from the one the functional was built against fails with
`ParameterTypeMismatch`; the GUI's solve path hits this whenever
`XBLOCKS ≠ YBLOCKS`, since the problem declares `diffusion` with shape
`(YBLOCKS, XBLOCKS)` while `SimPanel.solve_update` reshapes the spin values
to `(XBLOCKS, YBLOCKS)`. -/
theorem C2_parameter_type_mismatch :
    (∀ (f : ProjectionParameterFunctional) (mu : Parameter),
        mu.shape ≠ f.component_shape →
        f.evaluate mu = Except.error PyError.parameterTypeMismatch) ∧
    (∀ (xblocks yblocks x y : ℕ) (vals : ℕ × ℕ → ℚ), xblocks ≠ yblocks →
        (parameter_functional_factory (xblocks, yblocks) x y).evaluate
            (SimPanel.solve_update_mu xblocks yblocks vals) =
          Except.error PyError.parameterTypeMismatch) := by
  constructor
  · intro f mu h
    rw [ProjectionParameterFunctional.evaluate, if_neg]
    tauto
  · intro xblocks yblocks x y vals h
    rw [ProjectionParameterFunctional.evaluate, if_neg]
    rintro ⟨-, hshape⟩
    exact h (congrArg Prod.fst hshape)

/-- C2 witness: a functional over shape `(1, 2)` rejects a parameter of
shape `(2, 2)`, and the GUI parameter for `XBLOCKS = 2, YBLOCKS = 1`
(shape `(2, 1)`) is rejected by the functionals built over `(1, 2)`. -/
theorem C2_witness :
    (ProjectionParameterFunctional.mk "diffusion" (1, 2) (0, 0) "diffusion_0_0").evaluate
        (Parameter.mk "diffusion" (2, 2) (fun _ => 0)) =
      Except.error PyError.parameterTypeMismatch ∧
    (parameter_functional_factory (2, 1) 0 0).evaluate
        (SimPanel.solve_update_mu 2 1 (fun _ => 0)) =
      Except.error PyError.parameterTypeMismatch :=
  ⟨C2_parameter_type_mismatch.1 _ _ (by decide),
   C2_parameter_type_mismatch.2 2 1 0 0 (fun _ => 0) (by decide)⟩

/-- Helper: `evaluate` as the product of an x-interval indicator and a
y-interval indicator. -/
theorem evaluate_eq_indicator_mul (f : ThermalBlockDiffusionFunction) (p : ℚ × ℚ)
    (mu : Option Parameter) :
    f.evaluate p mu =
      (if ((f.x : ℚ) * f.dx ≤ p.1 ∧ p.1 < ((f.x : ℚ) + 1) * f.dx) then 1 else 0) *
      (if ((f.y : ℚ) * f.dy ≤ p.2 ∧ p.2 < ((f.y : ℚ) + 1) * f.dy) then 1 else 0) := by
  simp only [ThermalBlockDiffusionFunction.evaluate, ge_iff_le, one_mul]
  split_ifs <;> first | tauto | norm_num

/-- Helper: for `0 < n` and `0 ≤ t`, the point `t` lies in the `k`-th cell
`[k/n, (k+1)/n)` exactly when `k = ⌊t * n⌋`. -/
theorem cell_cond_iff (n k : ℕ) (t : ℚ) (hn : 0 < n) (h0 : 0 ≤ t) :
    ((k : ℚ) * (1 / n) ≤ t ∧ t < ((k : ℚ) + 1) * (1 / n)) ↔ k = ⌊t * n⌋₊ := by
  have hn' : (0 : ℚ) < n := by exact_mod_cast hn
  rw [mul_one_div, mul_one_div, div_le_iff₀ hn', lt_div_iff₀ hn']
  constructor
  · rintro ⟨ha, hb⟩
    have h2 : k ≤ ⌊t * n⌋₊ := Nat.le_floor ha
    have h3 : (⌊t * n⌋₊ : ℚ) ≤ t * n := Nat.floor_le (mul_nonneg h0 hn'.le)
    have h4 : (⌊t * n⌋₊ : ℚ) < (k : ℚ) + 1 := lt_of_le_of_lt h3 hb
    have h5 : ⌊t * n⌋₊ < k + 1 := by exact_mod_cast h4
    omega
  · rintro rfl
    exact ⟨Nat.floor_le (mul_nonneg h0 hn'.le), Nat.lt_floor_add_one (t * n)⟩

/-- Helper: for `0 ≤ t < 1` the cells `[k/n, (k+1)/n)`, `k < n`, cover `t`
exactly once. -/
theorem sum_indicator_cells (n : ℕ) (t : ℚ) (hn : 0 < n) (h0 : 0 ≤ t) (h1 : t < 1) :
    (∑ k ∈ Finset.range n,
        if ((k : ℚ) * (1 / n) ≤ t ∧ t < ((k : ℚ) + 1) * (1 / n)) then (1 : ℚ) else 0) = 1 := by
  have hn' : (0 : ℚ) < n := by exact_mod_cast hn
  have hfl : ⌊t * n⌋₊ < n := by
    rw [Nat.floor_lt (mul_nonneg h0 hn'.le)]
    calc t * n < 1 * n := mul_lt_mul_of_pos_right h1 hn'
      _ = n := one_mul _
  calc (∑ k ∈ Finset.range n,
          if ((k : ℚ) * (1 / n) ≤ t ∧ t < ((k : ℚ) + 1) * (1 / n)) then (1 : ℚ) else 0)
      = ∑ k ∈ Finset.range n, if k = ⌊t * n⌋₊ then (1 : ℚ) else 0 :=
        Finset.sum_congr rfl fun k _ => if_congr (cell_cond_iff n k t hn h0) rfl rfl
    _ = if ⌊t * n⌋₊ ∈ Finset.range n then (1 : ℚ) else 0 :=
        Finset.sum_ite_eq' (Finset.range n) ⌊t * n⌋₊ fun _ => (1 : ℚ)
    _ = 1 := if_pos (Finset.mem_range.mpr hfl)

/-- Helper: bridge between list sums over `List.range` and `Finset.range`. -/
theorem list_range_map_sum (n : ℕ) (f : ℕ → ℚ) :
    ((List.range n).map f).sum = ∑ k ∈ Finset.range n, f k := by
  induction n with
  | zero => rfl
  | succ m ih =>
    rw [List.range_succ, List.map_append, List.sum_append, Finset.sum_range_succ, ih]
    simp

/-- Helper: a sum over the block index list is the double sum over the two
index ranges. -/
theorem blockIndices_map_sum (nx ny : ℕ) (F : ℕ × ℕ → ℚ) :
    ((blockIndices nx ny).map F).sum =
      ∑ x ∈ Finset.range nx, ∑ y ∈ Finset.range ny, F (x, y) := by
  induction nx with
  | zero => rfl
  | succ m ih =>
    rw [blockIndices, List.range_succ, List.flatMap_append, List.map_append, List.sum_append]
    rw [show (List.range m).flatMap (fun x => (List.range ny).map fun y => (x, y)) =
          blockIndices m ny from rfl, ih]
    rw [Finset.sum_range_succ]
    congr 1
    simp only [List.flatMap_cons, List.flatMap_nil, List.append_nil, List.map_map]
    rw [list_range_map_sum]
    rfl

/-- C4 counterexample: the claim over the closed unit square fails — for the
1×1 problem the point `(1, 0)` lies in `[0,1] × [0,1]` but no diffusion
block function is `1` there (the pointwise sum is `0`, not `1`). -/
theorem C4_counterexample_closed_square :
    (0 : ℚ) ≤ 1 ∧ (1 : ℚ) ≤ 1 ∧ (0 : ℚ) ≤ 0 ∧ (0 : ℚ) ≤ 1 ∧
    ((ThermalBlockProblem.diffusion_functions 1 1).map fun f => f.evaluate (1, 0) none).sum = 0 ∧
    ((ThermalBlockProblem.diffusion_functions 1 1).map fun f => f.evaluate (1, 0) none).sum ≠ 1 := by
  norm_num [ThermalBlockProblem.diffusion_functions, blockIndices,
    ThermalBlockDiffusionFunction.evaluate, List.flatMap, List.range_succ, Function.comp]

/-- C4 (amended): the `nx × ny` blocks partition the half-open unit square:
for `nx, ny ≥ 1` and every point `p` with `0 ≤ p₀ < 1` and `0 ≤ p₁ < 1`,
the pointwise sum of all diffusion block functions of `ThermalBlockProblem`
equals `1` (each summand is `0` or `1`, so exactly one block function is `1`
at `p`); points of the closed square with `p₀ = 1` or `p₁ = 1` are covered
by no block. -/
theorem C4_amended_blocks_partition (nx ny : ℕ) (hx : 0 < nx) (hy : 0 < ny)
    (p : ℚ × ℚ) (mu : Option Parameter)
    (h0 : 0 ≤ p.1) (h1 : p.1 < 1) (h2 : 0 ≤ p.2) (h3 : p.2 < 1) :
    ((ThermalBlockProblem.diffusion_functions nx ny).map fun f => f.evaluate p mu).sum = 1 := by
  rw [ThermalBlockProblem.diffusion_functions, List.map_map]
  have heval : ((fun f : ThermalBlockDiffusionFunction => f.evaluate p mu) ∘
        fun b : ℕ × ℕ =>
          (⟨b.1, b.2, 1 / (nx : ℚ), 1 / (ny : ℚ)⟩ : ThermalBlockDiffusionFunction)) =
      fun b : ℕ × ℕ =>
        (if ((b.1 : ℚ) * (1 / (nx : ℚ)) ≤ p.1 ∧ p.1 < ((b.1 : ℚ) + 1) * (1 / (nx : ℚ)))
          then (1 : ℚ) else 0) *
        (if ((b.2 : ℚ) * (1 / (ny : ℚ)) ≤ p.2 ∧ p.2 < ((b.2 : ℚ) + 1) * (1 / (ny : ℚ)))
          then (1 : ℚ) else 0) :=
    funext fun b => evaluate_eq_indicator_mul _ p mu
  rw [heval, blockIndices_map_sum]
  rw [← Finset.sum_mul_sum (Finset.range nx) (Finset.range ny)
    (fun x => if ((x : ℚ) * (1 / (nx : ℚ)) ≤ p.1 ∧ p.1 < ((x : ℚ) + 1) * (1 / (nx : ℚ)))
      then (1 : ℚ) else 0)
    (fun y => if ((y : ℚ) * (1 / (ny : ℚ)) ≤ p.2 ∧ p.2 < ((y : ℚ) + 1) * (1 / (ny : ℚ)))
      then (1 : ℚ) else 0)]
  rw [sum_indicator_cells nx p.1 hx h0 h1, sum_indicator_cells ny p.2 hy h2 h3]
  norm_num

/-- C4 witness: the amended partition property at the 2×2 problem and the
interior point `(1/3, 1/2)`. -/
theorem C4_witness :
    ((ThermalBlockProblem.diffusion_functions 2 2).map
        fun f => f.evaluate (1 / 3, 1 / 2) none).sum = 1 :=
  C4_amended_blocks_partition 2 2 (by norm_num) (by norm_num) (1 / 3, 1 / 2) none
    (by norm_num) (by norm_num) (by norm_num) (by norm_num)

/-- Helper: the nested-loop block enumeration lists `(k / ny, k % ny)` at
position `k`, for `k < nx * ny`. -/
theorem blockIndices_eq_range (nx ny : ℕ) :
    blockIndices nx ny = (List.range (nx * ny)).map fun k => (k / ny, k % ny) := by
  induction nx with
  | zero => simp [blockIndices]
  | succ m ih =>
    rw [blockIndices, List.range_succ, List.flatMap_append]
    rw [show (List.range m).flatMap (fun x => (List.range ny).map fun y => (x, y)) =
          blockIndices m ny from rfl, ih]
    rw [show (m + 1) * ny = m * ny + ny by ring, List.range_add, List.map_append]
    congr 1
    simp only [List.flatMap_cons, List.flatMap_nil, List.append_nil, List.map_map]
    refine List.map_congr_left fun j hj => ?_
    have hjny : j < ny := List.mem_range.mp hj
    have hny : 0 < ny := lt_of_le_of_lt (Nat.zero_le j) hjny
    have hdiv : (m * ny + j) / ny = m := by
      rw [show m * ny + j = j + ny * m by ring, Nat.add_mul_div_left j m hny,
        Nat.div_eq_of_lt hjny, Nat.zero_add]
    have hmod : (m * ny + j) % ny = j := by
      rw [show m * ny + j = j + ny * m by ring, Nat.add_mul_mod_self_left,
        Nat.mod_eq_of_lt hjny]
    simp [Function.comp, hdiv, hmod]

/-- C5: `ThermalBlockProblem` builds exactly `nx * ny` diffusion functions
and exactly `nx * ny` parameter functionals, both in the fixed product order
over `x < nx`, `y < ny` (the `k`-th block is `(k / ny, k % ny)`), so that
the `k`-th diffusion function and the `k`-th functional refer to the same
block; the lists are fixed at construction. -/
theorem C5_construction_pairing (nx ny : ℕ) :
    (ThermalBlockProblem.diffusion_functions nx ny).length = nx * ny ∧
    (ThermalBlockProblem.parameter_functionals nx ny).length = nx * ny ∧
    ∀ k, k < nx * ny →
      (ThermalBlockProblem.diffusion_functions nx ny)[k]? =
        some ⟨k / ny, k % ny, 1 / (nx : ℚ), 1 / (ny : ℚ)⟩ ∧
      (ThermalBlockProblem.parameter_functionals nx ny)[k]? =
        some (parameter_functional_factory (nx, ny) (k / ny) (k % ny)) := by
  have hlen : (blockIndices nx ny).length = nx * ny := by
    rw [blockIndices_eq_range, List.length_map, List.length_range]
  refine ⟨?_, ?_, fun k hk => ?_⟩
  · rw [ThermalBlockProblem.diffusion_functions, List.length_map, hlen]
  · rw [ThermalBlockProblem.parameter_functionals, List.length_map, hlen]
  · have hbi : (blockIndices nx ny)[k]? = some (k / ny, k % ny) := by
      rw [blockIndices_eq_range, List.getElem?_map, List.getElem?_range hk, Option.map_some']
    constructor
    · rw [ThermalBlockProblem.diffusion_functions, List.getElem?_map, hbi, Option.map_some']
    · rw [ThermalBlockProblem.parameter_functionals, List.getElem?_map, hbi, Option.map_some']

/-- C5 witness: in the 2×3 problem, position 4 of both construction lists
refers to block `(1, 1)`. -/
theorem C5_witness :
    (ThermalBlockProblem.diffusion_functions 2 3).length = 6 ∧
    (ThermalBlockProblem.parameter_functionals 2 3).length = 6 ∧
    (ThermalBlockProblem.diffusion_functions 2 3)[4]? =
      some ⟨1, 1, 1 / (2 : ℚ), 1 / (3 : ℚ)⟩ ∧
    (ThermalBlockProblem.parameter_functionals 2 3)[4]? =
      some (parameter_functional_factory (2, 3) 1 1) := by
  have h := C5_construction_pairing 2 3
  have h4 := h.2.2 4 (by norm_num)
  exact ⟨h.1, h.2.1, by simpa using h4.1, by simpa using h4.2⟩

/-- Helper: `argmaxFirst` returns `none` only on the empty list. -/
theorem argmaxFirst_eq_none_iff {μ : Type} (l : List (μ × ℚ)) :
    argmaxFirst l = none ↔ l = [] := by
  cases l <;> simp [argmaxFirst]

/-- Helper: every greedy run extends the basis by at most `fuel` vectors. -/
theorem greedyAux_basis_le {μ V : Type} (fom : μ → V) (estimate : List V → μ → ℚ)
    (extend : List V → V → Option V) (training : List μ) (tol : Option ℚ) :
    ∀ (fuel : ℕ) (r : GreedyResult V),
      (greedyAux fom estimate extend training tol fuel r).basis.length
        ≤ r.basis.length + fuel := by
  intro fuel
  induction fuel with
  | zero => intro r; simp [greedyAux]
  | succ m ih =>
    intro r
    rw [greedyAux]
    split
    · split
      · simp
      · split
        · simp
        · refine le_trans (ih _) ?_
          simp only [List.length_append, List.length_cons, List.length_nil]
          omega
    · split
      · simp
      · split
        · simp
        · split
          · simp
          · refine le_trans (ih _) ?_
            simp only [List.length_append, List.length_cons, List.length_nil]
            omega

/-- Helper: a stall-free greedy run without tolerance, started from a
nonempty basis, accepts one vector per remaining slot and increments the
instrumentation counters accordingly. -/
theorem greedyAux_run_of_ne_nil {μ V : Type} (fom : μ → V) (estimate : List V → μ → ℚ)
    (extend : List V → V → Option V) (training : List μ)
    (ht : training ≠ []) (hext : ∀ b u, (extend b u).isSome) :
    ∀ (fuel : ℕ) (r : GreedyResult V), r.basis ≠ [] →
      (greedyAux fom estimate extend training none fuel r).basis.length
          = r.basis.length + fuel ∧
      (greedyAux fom estimate extend training none fuel r).status
          = GreedyStatus.maxReached ∧
      (greedyAux fom estimate extend training none fuel r).fomCalls = r.fomCalls + fuel ∧
      (greedyAux fom estimate extend training none fuel r).estimateCalls
          = r.estimateCalls + fuel * training.length ∧
      (greedyAux fom estimate extend training none fuel r).iterations
          = r.iterations + fuel := by
  intro fuel
  induction fuel with
  | zero => intro r _; simp [greedyAux]
  | succ m ih =>
    intro r hr
    have hempty : r.basis.isEmpty = false := by
      cases hb : r.basis with
      | nil => exact absurd hb hr
      | cons a l => rfl
    rw [greedyAux, if_neg (by rw [hempty]; exact Bool.false_ne_true)]
    obtain ⟨muErr, hma⟩ :
        ∃ q, argmaxFirst (training.map fun mu => (mu, estimate r.basis mu)) = some q := by
      cases hq : argmaxFirst (training.map fun mu => (mu, estimate r.basis mu)) with
      | none =>
        rw [argmaxFirst_eq_none_iff, List.map_eq_nil_iff] at hq
        exact absurd hq ht
      | some q => exact ⟨q, rfl⟩
    obtain ⟨v, hv⟩ := Option.isSome_iff_exists.mp (hext r.basis (fom muErr.1))
    simp only [hma, hv, tolReachedAt, Bool.false_eq_true, if_false]
    have h := ih { r with basis := r.basis ++ [v],
                          iterations := r.iterations + 1,
                          estimateCalls := r.estimateCalls + training.length,
                          fomCalls := r.fomCalls + 1 } (by simp)
    simp only [List.length_append, List.length_cons, List.length_nil] at h
    refine ⟨?_, h.2.1, ?_, ?_, ?_⟩
    · rw [h.1]; omega
    · rw [h.2.2.1]; omega
    · rw [h.2.2.2.1, Nat.succ_mul]; omega
    · rw [h.2.2.2.2]; omega

/-- Helper: full description of a stall-free greedy run without tolerance
from an empty basis: exactly `M` vectors are accepted, the full-order model
is solved `M` times, the estimator runs on every training sample in every
iteration but the first. -/
theorem greedy_nostall_facts {μ V : Type} (fom : μ → V) (estimate : List V → μ → ℚ)
    (extend : List V → V → Option V) (training : List μ) (M : ℕ)
    (ht : training ≠ []) (hext : ∀ b u, (extend b u).isSome) :
    (greedy fom estimate extend training none M).basis.length = M ∧
    (greedy fom estimate extend training none M).status = GreedyStatus.maxReached ∧
    (greedy fom estimate extend training none M).fomCalls = M ∧
    (greedy fom estimate extend training none M).estimateCalls
        = (M - 1) * training.length ∧
    (greedy fom estimate extend training none M).iterations = M := by
  obtain ⟨t, ts, rfl⟩ := List.exists_cons_of_ne_nil ht
  rw [greedy, if_neg (by exact Bool.false_ne_true)]
  cases M with
  | zero => simp [greedyAux]
  | succ m =>
    obtain ⟨v, hv⟩ := Option.isSome_iff_exists.mp (hext [] (fom t))
    simp only [greedyAux, List.isEmpty_nil, if_true, List.head?_cons, hv, List.nil_append]
    have h := greedyAux_run_of_ne_nil fom estimate extend (t :: ts) ht hext m
      { basis := [v], status := GreedyStatus.maxReached,
        fomCalls := 0 + 1, estimateCalls := 0, iterations := 0 + 1 } (by simp)
    simp only [List.length_cons, List.length_nil, List.length_singleton] at h
    refine ⟨?_, h.2.1, ?_, ?_, ?_⟩
    · rw [h.1]; omega
    · rw [h.2.2.1]; omega
    · rw [h.2.2.2.1, Nat.succ_sub_one]; simp
    · rw [h.2.2.2.2]; omega

/-- C6: the greedy loop terminates — the basis never exceeds
`max_extensions` (`RBSIZE` in the demo); with no tolerance configured (as in
the demo) and no extension stall, a nonempty training set yields a basis of
exactly `max_extensions` vectors, stopping because the basis length reached
the configured maximum. -/
theorem C6_greedy_termination {μ V : Type} (fom : μ → V) (estimate : List V → μ → ℚ)
    (extend : List V → V → Option V) (training : List μ) (tol : Option ℚ)
    (max_extensions : ℕ) :
    (greedy fom estimate extend training tol max_extensions).basis.length
        ≤ max_extensions ∧
    (training ≠ [] → (∀ b u, (extend b u).isSome) → tol = none →
      (greedy fom estimate extend training tol max_extensions).basis.length
          = max_extensions ∧
      (greedy fom estimate extend training tol max_extensions).status
          = GreedyStatus.maxReached) := by
  constructor
  · rw [greedy]
    split
    · simp
    · refine le_trans (greedyAux_basis_le fom estimate extend training tol max_extensions _) ?_
      simp
  · rintro ht hext rfl
    have h := greedy_nostall_facts fom estimate extend training max_extensions ht hext
    exact ⟨h.1, h.2.1⟩

/-- C6 witness: a stall-free run over the training set `[0, 1]` with
`max_extensions = 3` returns exactly 3 basis vectors. -/
theorem C6_witness :
    (greedy (fun n : ℕ => n) (fun _ _ => (0 : ℚ)) (fun _ v => some v)
        [0, 1] none 3).basis.length = 3 ∧
    (greedy (fun n : ℕ => n) (fun _ _ => (0 : ℚ)) (fun _ v => some v)
        [0, 1] none 3).status = GreedyStatus.maxReached :=
  (C6_greedy_termination (fun n : ℕ => n) (fun _ _ => (0 : ℚ)) (fun _ v => some v)
      [0, 1] none 3).2 (by decide) (fun b u => rfl) rfl

/-- C7 counterexample: the claim that the estimator is queried for every
training sample in every iteration fails at the first iteration, which per
§4.4 step 1 skips estimation: the stall-free estimator-based run over the
two-sample training set `[0, 1]` with `max_extensions = 2` performs 2
iterations but only 2 estimator queries, not `2 * 2 = 4`. -/
theorem C7_counterexample_first_iteration :
    (greedy (fun n : ℕ => n) (fun _ _ => (0 : ℚ)) (fun _ v => some v)
        [0, 1] none 2).status = GreedyStatus.maxReached ∧
    (greedy (fun n : ℕ => n) (fun _ _ => (0 : ℚ)) (fun _ v => some v)
        [0, 1] none 2).iterations = 2 ∧
    (greedy (fun n : ℕ => n) (fun _ _ => (0 : ℚ)) (fun _ v => some v)
        [0, 1] none 2).estimateCalls = 2 ∧
    (greedy (fun n : ℕ => n) (fun _ _ => (0 : ℚ)) (fun _ v => some v)
        [0, 1] none 2).estimateCalls
      ≠ (greedy (fun n : ℕ => n) (fun _ _ => (0 : ℚ)) (fun _ v => some v)
          [0, 1] none 2).iterations * ([0, 1] : List ℕ).length := by
  decide

/-- C7 (amended): in a stall-free estimator-based greedy run without
tolerance, the full-order model is solved exactly once per accepted basis
vector (so the estimator never triggers a full-order solve), and the
estimator is queried on every training sample in every iteration except the
first, which starts from the empty basis and skips estimation. -/
theorem C7_amended_call_counts {μ V : Type} (fom : μ → V) (estimate : List V → μ → ℚ)
    (extend : List V → V → Option V) (training : List μ) (max_extensions : ℕ)
    (ht : training ≠ []) (hext : ∀ b u, (extend b u).isSome) :
    (greedy fom estimate extend training none max_extensions).fomCalls
        = (greedy fom estimate extend training none max_extensions).basis.length ∧
    (greedy fom estimate extend training none max_extensions).iterations
        = max_extensions ∧
    (greedy fom estimate extend training none max_extensions).estimateCalls
        = (max_extensions - 1) * training.length := by
  have h := greedy_nostall_facts fom estimate extend training max_extensions ht hext
  exact ⟨by rw [h.2.2.1, h.1], h.2.2.2.2, h.2.2.2.1⟩

/-- C7 witness: the amended call counts at a concrete stall-free run. -/
theorem C7_witness :
    (greedy (fun n : ℕ => n) (fun _ _ => (0 : ℚ)) (fun _ v => some v)
        [0, 1] none 3).fomCalls
      = (greedy (fun n : ℕ => n) (fun _ _ => (0 : ℚ)) (fun _ v => some v)
          [0, 1] none 3).basis.length ∧
    (greedy (fun n : ℕ => n) (fun _ _ => (0 : ℚ)) (fun _ v => some v)
        [0, 1] none 3).iterations = 3 ∧
    (greedy (fun n : ℕ => n) (fun _ _ => (0 : ℚ)) (fun _ v => some v)
        [0, 1] none 3).estimateCalls = (3 - 1) * ([0, 1] : List ℕ).length :=
  C7_amended_call_counts (fun n : ℕ => n) (fun _ _ => (0 : ℚ)) (fun _ v => some v)
    [0, 1] 3 (by decide) (fun b u => rfl)

/-- Helper: after `n` solve calls the `ReducedSim` state is the initial one
for `n = 0` and the built one (`first` cleared, model built) afterwards. -/
theorem ReducedSim.run_state (n : ℕ) :
    (ReducedSim.run n).1 =
      if n = 0 then ReducedSim.init else { first := false, built := true } := by
  induction n with
  | zero => rfl
  | succ k ih =>
    rw [ReducedSim.run]
    cases k with
    | zero => rfl
    | succ j =>
      simp only [Nat.succ_ne_zero, if_false] at ih ⊢
      simp [ih, ReducedSim.solveCall]

/-- C8: the reduced model follows the Unbuilt-to-Built lifecycle — over any
number of `ReducedSim.solve` calls, the greedy build runs at most once (and
exactly once as soon as one call happened), every build starts from the
Unbuilt state (`first` set, nothing built), and `rb_discretization.solve` is
only ever invoked in a state where the reduced model is built, i.e. the
build of `_first` completes before the reduced solve. -/
theorem C8_lifecycle (n : ℕ) :
    ((ReducedSim.run n).2.filter fun e => e.1 == SimEvent.greedyBuild).length = min n 1 ∧
    ∀ e ∈ (ReducedSim.run n).2,
      (e.1 = SimEvent.romSolve → e.2.built = true) ∧
      (e.1 = SimEvent.greedyBuild → e.2.first = true ∧ e.2.built = false) := by
  induction n with
  | zero => exact ⟨rfl, fun e he => absurd he (List.not_mem_nil e)⟩
  | succ k ih =>
    have hst := ReducedSim.run_state k
    rw [ReducedSim.run]
    constructor
    · rw [List.filter_append, List.length_append, ih.1]
      cases k with
      | zero => rw [hst]; rfl
      | succ j =>
        simp only [Nat.succ_ne_zero, if_false] at hst
        rw [hst]
        simp only [ReducedSim.solveCall, Bool.false_eq_true, if_false, List.filter_cons,
          List.filter_nil]
        simp
    · intro e he
      rw [List.mem_append] at he
      rcases he with he | he
      · exact ih.2 e he
      · cases k with
        | zero =>
          rw [hst] at he
          simp only [ReducedSim.solveCall, ReducedSim.init, ReducedSim.firstStep,
            if_true, List.mem_cons, List.not_mem_nil, or_false] at he
          rcases he with rfl | rfl
          · exact ⟨fun hc => absurd hc (by simp), fun _ => ⟨rfl, rfl⟩⟩
          · exact ⟨fun _ => rfl, fun hc => absurd hc (by simp)⟩
        | succ j =>
          simp only [Nat.succ_ne_zero, if_false] at hst
          rw [hst] at he
          simp only [ReducedSim.solveCall, Bool.false_eq_true, if_false,
            List.mem_cons, List.not_mem_nil, or_false] at he
          subst he
          exact ⟨fun _ => rfl, fun hc => absurd hc (by simp)⟩

/-- C8 witness: after one solve call, one build happened, and the reduced
solve event of that call executed in the built state. -/
theorem C8_witness :
    ((ReducedSim.run 1).2.filter fun e => e.1 == SimEvent.greedyBuild).length = min 1 1 ∧
    (((SimEvent.romSolve, ({ first := false, built := true } : SimState)).1
        = SimEvent.romSolve →
      (SimEvent.romSolve, ({ first := false, built := true } : SimState)).2.built = true) ∧
     ((SimEvent.romSolve, ({ first := false, built := true } : SimState)).1
        = SimEvent.greedyBuild →
      (SimEvent.romSolve, ({ first := false, built := true } : SimState)).2.first = true ∧
      (SimEvent.romSolve, ({ first := false, built := true } : SimState)).2.built = false)) :=
  ⟨(C8_lifecycle 1).1,
   (C8_lifecycle 1).2 (SimEvent.romSolve, { first := false, built := true }) (by decide)⟩
